import Mathlib

/-!
Verification development for `dist/macos/update_appcast_tip.py`.

The script is a one-shot feed updater: it reads the environment variables
`GHOSTTY_BUILD` and `GHOSTTY_COMMIT`, parses `sign_update.txt` into a
key/value map, parses `appcast.xml`, appends one freshly constructed
`<item>` element to the first `channel` child of the feed root, and writes
the result to `appcast_new.xml`.

The embedding below models the script's pure data transformations:

* Python `str.split(sep)` / `str.strip()` / `s.split("=", 1)` are modelled
  character-list-structurally (`pySplit`, `pyStrip`, `splitFirstEq`);
* the Python `dict` built by the signature loop is modelled as an ordered
  association list with the dict-assignment operation `dictSet`
  (insertion order preserved, assignment to an existing key updates in
  place);
* the XML tree is modelled by `Element` (tag, ordered attributes, text,
  ordered children), as spec section 9 prescribes;
* the whole module body is modelled by `runScript`, whose `RunResult`
  records the files written and the error (uncaught Python exception /
  spec error taxonomy) that aborted the run, if any.  File reading,
  environment lookup and XML parsing are represented by `Option`-valued
  inputs: `none` stands for "absent / unreadable / unparseable".
-/

/-- Characters stripped by Python's `str.strip()` (ASCII whitespace). -/
def isPySpace (c : Char) : Bool :=
  c = ' ' || c = '\t' || c = '\n' || c = '\r' || c = '\x0B' || c = '\x0C'

/-- Python `value.strip()`: remove leading and trailing whitespace. -/
def pyStrip (s : String) : String :=
  String.mk (((s.data.dropWhile isPySpace).reverse.dropWhile isPySpace).reverse)

/-- Python `text.split(sep)` for a one-character separator, on character
lists: splits at every occurrence of `sep` and keeps empty fields
(`"".split(" ") = [""]`, `"a  b".split(" ") = ["a", "", "b"]`). -/
def splitChars (sep : Char) : List Char → List (List Char)
  | [] => [[]]
  | c :: cs =>
    if c = sep then [] :: splitChars sep cs
    else
      match splitChars sep cs with
      | [] => [[c]]
      | t :: ts => (c :: t) :: ts

/-- Python `text.split(sep)` for a one-character separator (line 31 of the
script uses `f.read().split(" ")`). -/
def pySplit (s : String) (sep : Char) : List String :=
  (splitChars sep s.data).map String.mk

/-- Python `pair.split("=", 1)` on a character list: split at the first
`'='` only; `none` when the string contains no `'='` (in which case the
script's unpacking `key, value = pair.split("=", 1)` raises `ValueError`). -/
def splitFirstEqChars : List Char → Option (List Char × List Char)
  | [] => none
  | c :: cs =>
    if c = '=' then some ([], cs)
    else (splitFirstEqChars cs).map (fun p => (c :: p.1, p.2))

/-- Python `pair.split("=", 1)` (script line 32), `none` on no separator. -/
def splitFirstEq (s : String) : Option (String × String) :=
  (splitFirstEqChars s.data).map (fun p => (String.mk p.1, String.mk p.2))

/-- Python dict assignment `d[k] = v` on an insertion-ordered association
list: update in place when the key is present, append otherwise. -/
def dictSet : List (String × String) → String → String → List (String × String)
  | [], k, v => [(k, v)]
  | p :: ps, k, v => if p.1 = k then (k, v) :: ps else p :: dictSet ps k v

/-- Python dict lookup `d[k]` on an association list built by `dictSet`. -/
def lookupAttr : List (String × String) → String → Option String
  | [], _ => none
  | p :: ps, k => if p.1 = k then some p.2 else lookupAttr ps k

/-- The failure kinds of one run: the spec's error taxonomy (section 7)
plus the uncaught `IndexError` the script raises at `value[0]` when a
token's stripped value is empty. -/
inductive RunError where
  | missingEnvironment (name : String)
  | missingFile (name : String)
  | malformedSignature (token : String)
  | emptySignatureValue (token : String)
  | malformedFeed
  | missingChannel
  deriving DecidableEq

/-- The signature-parsing loop of the script (lines 30-36):

```
attrs = {}
for pair in f.read().split(" "):
    key, value = pair.split("=", 1)
    value = value.strip()
    if value[0] == '"':
        value = value[1:-1]
    attrs[key] = value
```

A token without `'='` raises `ValueError` (modelled `malformedSignature`);
a token whose stripped value is empty raises `IndexError` at `value[0]`
(modelled `emptySignatureValue`). -/
def parseTokens : List (String × String) → List String → Except RunError (List (String × String))
  | acc, [] => .ok acc
  | acc, t :: rest =>
    match splitFirstEq t with
    | none => .error (.malformedSignature t)
    | some (k, v) =>
      match (pyStrip v).data with
      | [] => .error (.emptySignatureValue t)
      | c :: cs =>
        parseTokens (dictSet acc k (if c = '\"' then String.mk cs.dropLast else pyStrip v)) rest

/-- Parse the whole `sign_update.txt` blob: split on single spaces, then
run the loop with an initially empty dict. -/
def parseSignature (blob : String) : Except RunError (List (String × String)) :=
  parseTokens [] (pySplit blob ' ')

/-- The processing of one signature token, as an `Option` (`none` when the
token makes the loop raise): split at the first `'='`, strip the value,
and when the stripped value starts with a double quote remove exactly its
first and last characters (without checking that the removed trailing
character is a quote). -/
def specEntry (t : String) : Option (String × String) :=
  match splitFirstEq t with
  | none => none
  | some (k, v) =>
    match (pyStrip v).data with
    | [] => none
    | c :: cs => some (k, if c = '\"' then String.mk cs.dropLast else pyStrip v)

/-- An XML element as the script manipulates it (spec section 9): tag
name, ordered attribute list, optional text content, ordered children.
Namespace-qualified tags (`sparkle:version`, ...) are kept as their
prefixed spelling, which is what `ET.register_namespace` makes the
serializer emit. -/
inductive Element : Type where
  | mk (tag : String) (attrib : List (String × String)) (text : Option String)
      (children : List Element)

/-- The tag name of an element. -/
def Element.tag : Element → String
  | .mk t _ _ _ => t

/-- The attribute list of an element. -/
def Element.attrib : Element → List (String × String)
  | .mk _ a _ _ => a

/-- The text content of an element. -/
def Element.text : Element → Option String
  | .mk _ _ x _ => x

/-- The child list of an element. -/
def Element.children : Element → List Element
  | .mk _ _ _ c => c

/-- Append a new last child (the mutation performed by `ET.SubElement`). -/
def Element.appendChild : Element → Element → Element
  | .mk t a x ch, e => .mk t a x (ch ++ [e])

/-- `et.find(tag)` (script line 44): first direct child with the given
tag, or `none`. -/
def findChild (e : Element) (tag : String) : Option Element :=
  e.children.find? (fun c => c.tag = tag)

/-- The `item` elements among an element's direct children. -/
def itemsOf (e : Element) : List Element :=
  e.children.filter (fun c => c.tag = "item")

/-- The fixed-template enclosure URL (script line 69). -/
def tipUrl (build : String) : String :=
  "https://tip.files.ghostty.dev/" ++ build ++ "/ghostty-macos-universal.zip"

/-- The attributes of the new `enclosure` element (script lines 68-72):
`elem.set("url", ...)`, `elem.set("type", ...)`, then one `elem.set` per
signature-map entry in insertion order; `Element.set` has `dictSet`
(dict-assignment) semantics, so a map entry whose key is `url` or `type`
overwrites the fixed value. -/
def enclosureAttrs (build : String) (attrs : List (String × String)) : List (String × String) :=
  attrs.foldl (fun d p => dictSet d p.1 p.2)
    (dictSet (dictSet [] "url" (tipUrl build)) "type" "application/octet-stream")

/-- The `description` text (script lines 59-67), with the commit hash
substituted into the fixed multi-line template. -/
def descriptionText (commit : String) : String :=
  "\n<p>Automated build from commit <code>" ++ commit ++ "</code>.</p>\n<p>\nThese are automatic per-commit builds generated from the main Git branch.\nWe do not generate any release notes for these builds. You can view the full\ncommit history\n<a href=\"https://github.com/mitchellh/ghostty\">on GitHub</a> for all changes.\n</p>\n"

/-- The new `<item>` constructed by script lines 47-72: child elements in
source order, with `nowStr` standing for the RFC-822 rendering of the
timestamp captured at the start of the run. -/
def mkItem (build commit nowStr : String) (attrs : List (String × String)) : Element :=
  .mk "item" [] none
    [ .mk "title" [] (some ("Build " ++ build)) []
    , .mk "pubDate" [] (some nowStr) []
    , .mk "sparkle:version" [] (some build) []
    , .mk "sparkle:shortVersionString" [] (some commit) []
    , .mk "sparkle:minimumSystemVersion" [] (some "12.0.0") []
    , .mk "description" [] (some (descriptionText commit)) []
    , .mk "enclosure" (enclosureAttrs build attrs) none []
    ]

/-- Append a new child to the first element with tag `channel` in a child
list, leaving every other child untouched (the in-place mutation of the
element returned by `et.find("channel")`). -/
def appendToFirstChannel : List Element → Element → List Element
  | [], _ => []
  | c :: cs, item =>
    if c.tag = "channel" then c.appendChild item :: cs
    else c :: appendToFirstChannel cs item

/-- The whole-document effect of `ET.SubElement(channel, "item")` plus the
item construction: the first `channel` child of the root gains the new
item as its last child. -/
def appendItemToChannel : Element → Element → Element
  | .mk t a x ch, item => .mk t a x (appendToFirstChannel ch item)

/-- The observable outcome of one run: the files written (name and
document), in order, and the error that aborted the run, if any. -/
structure RunResult where
  written : List (String × Element)
  err : Option RunError

/-- The module body of the script, in statement order: read
`GHOSTTY_BUILD` then `GHOSTTY_COMMIT` (a missing variable raises
`KeyError`), read and parse `sign_update.txt`, parse `appcast.xml`
(`none` models a missing or unparseable file), find `channel` (when it is
missing, `ET.SubElement(None, "item")` raises), build and append the new
item, and only then — as the final statement — write `appcast_new.xml`. -/
def runScript (envBuild envCommit sigFile : Option String) (feedXml : Option Element)
    (nowStr : String) : RunResult :=
  match envBuild with
  | none => ⟨[], some (.missingEnvironment "GHOSTTY_BUILD")⟩
  | some build =>
    match envCommit with
    | none => ⟨[], some (.missingEnvironment "GHOSTTY_COMMIT")⟩
    | some commit =>
      match sigFile with
      | none => ⟨[], some (.missingFile "sign_update.txt")⟩
      | some sigText =>
        match parseSignature sigText with
        | .error e => ⟨[], some e⟩
        | .ok attrs =>
          match feedXml with
          | none => ⟨[], some .malformedFeed⟩
          | some doc =>
            match findChild doc "channel" with
            | none => ⟨[], some .missingChannel⟩
            | some _ =>
              ⟨[("appcast_new.xml", appendItemToChannel doc (mkItem build commit nowStr attrs))],
                none⟩

/-- The first token of the blob that lacks an `'='` separator (the one at
which the loop's unpacking raises `ValueError`, provided no earlier token
raises first). -/
def firstNoEq (ts : List String) : Option String :=
  ts.find? (fun t => (splitFirstEq t).isNone)

/-- `true` when every token that does split at an `'='` has a nonempty
stripped value (so the `value[0]` access cannot raise `IndexError`). -/
def allValuesNonempty (ts : List String) : Bool :=
  ts.all (fun t =>
    match splitFirstEq t with
    | some kv => !(pyStrip kv.2).data.isEmpty
    | none => true)

/-- `true` when every token contains an `'='` separator. -/
def allHaveEq (ts : List String) : Bool :=
  ts.all (fun t => (splitFirstEq t).isSome)

/-- The first token whose stripped value is empty (the one at which
`value[0]` raises `IndexError`, provided every token splits at an `'='`). -/
def firstEmptyValue (ts : List String) : Option String :=
  ts.find? (fun t =>
    match splitFirstEq t with
    | some kv => (pyStrip kv.2).data.isEmpty
    | none => false)

/-- The processed value of the last token of `ts` whose key is `k`
(`none` when no token has key `k`). -/
def lastEntryValue : List String → String → Option String
  | [], _ => none
  | t :: rest, k =>
    match lastEntryValue rest k with
    | some v => some v
    | none =>
      match specEntry t with
      | some kv => if kv.1 = k then some kv.2 else none
      | none => none

/-- The keys of an association list, in order. -/
def keysOf (d : List (String × String)) : List String :=
  d.map Prod.fst

theorem lookupAttr_dictSet_self (d : List (String × String)) (k v : String) :
    lookupAttr (dictSet d k v) k = some v := by
  induction d with
  | nil => simp [dictSet, lookupAttr]
  | cons p ps ih =>
    by_cases h : p.1 = k
    · simp [dictSet, h, lookupAttr]
    · simp [dictSet, h, lookupAttr, ih]

theorem lookupAttr_dictSet_ne (d : List (String × String)) (k v k' : String) (h : k' ≠ k) :
    lookupAttr (dictSet d k v) k' = lookupAttr d k' := by
  have hne : ¬ k = k' := fun hek => h hek.symm
  induction d with
  | nil => simp [dictSet, lookupAttr, hne]
  | cons p ps ih =>
    by_cases hp : p.1 = k
    · have hp' : ¬ p.1 = k' := by rw [hp]; exact hne
      simp [dictSet, hp, lookupAttr, hne, hp']
    · by_cases hp' : p.1 = k'
      · rw [dictSet, if_neg hp, lookupAttr, if_pos hp', lookupAttr, if_pos hp']
      · rw [dictSet, if_neg hp, lookupAttr, if_neg hp', lookupAttr, if_neg hp', ih]

theorem dictSet_of_not_mem (d : List (String × String)) (k v : String)
    (h : k ∉ keysOf d) : dictSet d k v = d ++ [(k, v)] := by
  induction d with
  | nil => simp [dictSet]
  | cons p ps ih =>
    simp only [keysOf, List.map_cons, List.mem_cons, not_or] at h
    have hp : ¬ p.1 = k := fun h' => h.1 (h' ▸ rfl)
    simp [dictSet, hp, ih (by simpa [keysOf] using h.2)]

theorem keysOf_nil : keysOf [] = [] := rfl

theorem keysOf_cons (p : String × String) (ps : List (String × String)) :
    keysOf (p :: ps) = p.1 :: keysOf ps := rfl

theorem keysOf_dictSet (d : List (String × String)) (k v : String) :
    keysOf (dictSet d k v) = if k ∈ keysOf d then keysOf d else keysOf d ++ [k] := by
  induction d with
  | nil => simp [dictSet, keysOf]
  | cons p ps ih =>
    by_cases hp : p.1 = k
    · subst hp
      simp [dictSet, keysOf_cons]
    · have hkp : ¬ k = p.1 := fun h' => hp h'.symm
      simp only [dictSet, hp, if_false, keysOf_cons, ih, List.mem_cons, hkp, false_or]
      by_cases hm : k ∈ keysOf ps
      · simp [hm]
      · simp [hm]

theorem keysOf_dictSet_nodup (d : List (String × String)) (k v : String)
    (h : (keysOf d).Nodup) : (keysOf (dictSet d k v)).Nodup := by
  rw [keysOf_dictSet]
  by_cases hm : k ∈ keysOf d
  · simpa [hm] using h
  · simp only [hm, if_false]
    simpa [List.nodup_append] using ⟨h, hm⟩

theorem lookupAttr_mem (d : List (String × String)) (k v : String)
    (h : lookupAttr d k = some v) : (k, v) ∈ d := by
  induction d with
  | nil => simp [lookupAttr] at h
  | cons p ps ih =>
    by_cases hp : p.1 = k
    · rw [lookupAttr, if_pos hp, Option.some.injEq] at h
      have hpv : p = (k, v) := by
        obtain ⟨a, b⟩ := p
        simp only at hp h
        rw [hp, h]
      rw [← hpv]
      exact List.mem_cons_self _ _
    · rw [lookupAttr, if_neg hp] at h
      exact List.mem_cons_of_mem _ (ih h)

theorem splitFirstEqChars_eq_none_iff (cs : List Char) :
    splitFirstEqChars cs = none ↔ '=' ∉ cs := by
  induction cs with
  | nil => simp [splitFirstEqChars]
  | cons c cs ih =>
    by_cases hc : c = '='
    · simp [splitFirstEqChars, hc]
    · have : ¬ '=' = c := fun h => hc h.symm
      simp [splitFirstEqChars, hc, Option.map_eq_none', ih, this]

theorem splitFirstEq_eq_none_iff (t : String) :
    splitFirstEq t = none ↔ '=' ∉ t.data := by
  rw [splitFirstEq, Option.map_eq_none']
  exact splitFirstEqChars_eq_none_iff t.data

theorem splitFirstEqChars_append (k v : List Char) (hk : '=' ∉ k) :
    splitFirstEqChars (k ++ '=' :: v) = some (k, v) := by
  induction k with
  | nil => simp [splitFirstEqChars]
  | cons c cs ih =>
    simp only [List.mem_cons, not_or] at hk
    have hc : ¬ c = '=' := fun h => hk.1 h.symm
    simp [splitFirstEqChars, hc, ih hk.2]

theorem splitFirstEq_append (k v : String) (hk : '=' ∉ k.data) :
    splitFirstEq (k ++ "=" ++ v) = some (k, v) := by
  have hdata : (k ++ "=" ++ v).data = k.data ++ '=' :: v.data := by
    simp [String.data_append]
  rw [splitFirstEq, hdata, splitFirstEqChars_append k.data v.data hk]
  simp

theorem keysOf_append (a b : List (String × String)) :
    keysOf (a ++ b) = keysOf a ++ keysOf b := by
  simp [keysOf]

theorem specEntry_inv (t : String) (e : String × String) (h : specEntry t = some e) :
    ∃ k v c cs, splitFirstEq t = some (k, v) ∧ (pyStrip v).data = c :: cs ∧
      e = (k, if c = '\"' then String.mk cs.dropLast else pyStrip v) := by
  unfold specEntry at h
  split at h
  · exact absurd h (by simp)
  next k v heq =>
    split at h
    · exact absurd h (by simp)
    next c cs hd =>
      simp only [Option.some.injEq] at h
      exact ⟨k, v, c, cs, heq, hd, h.symm⟩

theorem specEntry_of_split (t k v : String) (c : Char) (cs : List Char)
    (heq : splitFirstEq t = some (k, v)) (hd : (pyStrip v).data = c :: cs) :
    specEntry t = some (k, if c = '\"' then String.mk cs.dropLast else pyStrip v) := by
  simp only [specEntry, heq, hd]

theorem parseTokens_ok_of_good (ts : List String) : ∀ acc : List (String × String),
    (∀ t ∈ ts, (specEntry t).isSome) →
    (keysOf (ts.filterMap specEntry)).Nodup →
    (∀ p ∈ ts.filterMap specEntry, p.1 ∉ keysOf acc) →
    parseTokens acc ts = .ok (acc ++ ts.filterMap specEntry) := by
  induction ts with
  | nil =>
    intro acc _ _ _
    simp [parseTokens]
  | cons t rest ih =>
    intro acc hgood hnd hdisj
    obtain ⟨e, he⟩ := Option.isSome_iff_exists.mp (hgood t (List.mem_cons_self _ _))
    obtain ⟨k, v, c, cs, heq, hd, hev⟩ := specEntry_inv t e he
    have hfm : (t :: rest).filterMap specEntry = e :: rest.filterMap specEntry :=
      List.filterMap_cons_some he
    have hkacc : e.1 ∉ keysOf acc := hdisj e (by rw [hfm]; exact List.mem_cons_self _ _)
    have hknd : e.1 ∉ keysOf (rest.filterMap specEntry) := by
      rw [hfm, keysOf_cons] at hnd
      exact (List.nodup_cons.mp hnd).1
    rw [parseTokens]
    simp only [heq, hd]
    have hset : dictSet acc k (if c = '\"' then String.mk cs.dropLast else pyStrip v)
        = acc ++ [e] := by
      rw [hev]
      exact dictSet_of_not_mem acc _ _ (by rw [hev] at hkacc; exact hkacc)
    rw [hset, ih (acc ++ [e])
      (fun x hx => hgood x (List.mem_cons_of_mem _ hx))
      (by rw [hfm, keysOf_cons] at hnd; exact (List.nodup_cons.mp hnd).2)
      (by
        intro p hp
        rw [keysOf_append]
        simp only [List.mem_append, not_or]
        refine ⟨hdisj p (by rw [hfm]; exact List.mem_cons_of_mem _ hp), ?_⟩
        simp only [keysOf, List.map_cons, List.map_nil, List.mem_singleton]
        intro hpk
        exact hknd (hpk ▸ (List.mem_map_of_mem Prod.fst hp)))]
    rw [hfm, List.append_assoc, List.singleton_append]

theorem length_filterMap_of_isSome {α β : Type} (f : α → Option β) (l : List α)
    (h : ∀ a ∈ l, (f a).isSome) : (l.filterMap f).length = l.length := by
  induction l with
  | nil => rfl
  | cons a l ih =>
    obtain ⟨b, hb⟩ := Option.isSome_iff_exists.mp (h a (List.mem_cons_self _ _))
    rw [List.filterMap_cons_some hb, List.length_cons, List.length_cons,
      ih (fun x hx => h x (List.mem_cons_of_mem _ hx))]

theorem parseTokens_lookup (ts : List String) : ∀ (acc m : List (String × String)),
    parseTokens acc ts = .ok m → ∀ k,
    lookupAttr m k =
      match lastEntryValue ts k with
      | some v => some v
      | none => lookupAttr acc k := by
  induction ts with
  | nil =>
    intro acc m h k
    rw [parseTokens] at h
    obtain rfl : acc = m := by injection h
    simp [lastEntryValue]
  | cons t rest ih =>
    intro acc m h k
    rw [parseTokens] at h
    split at h
    · exact absurd h (by simp)
    next k' v heq =>
      split at h
      · exact absurd h (by simp)
      next c cs hd =>
        rw [ih _ m h k]
        rw [lastEntryValue]
        cases hl : lastEntryValue rest k with
        | some v' => simp [hl]
        | none =>
          simp only [hl]
          rw [specEntry_of_split t k' v c cs heq hd]
          by_cases hk : k' = k
          · subst hk
            simp [lookupAttr_dictSet_self]
          · rw [lookupAttr_dictSet_ne acc k' _ k (fun h' => hk h'.symm)]
            simp [hk]

theorem parseTokens_keys_nodup (ts : List String) : ∀ (acc m : List (String × String)),
    parseTokens acc ts = .ok m → (keysOf acc).Nodup → (keysOf m).Nodup := by
  induction ts with
  | nil =>
    intro acc m h hnd
    rw [parseTokens] at h
    obtain rfl : acc = m := by injection h
    exact hnd
  | cons t rest ih =>
    intro acc m h hnd
    rw [parseTokens] at h
    split at h
    · exact absurd h (by simp)
    next k' v heq =>
      split at h
      · exact absurd h (by simp)
      next c cs hd =>
        exact ih _ m h (keysOf_dictSet_nodup acc k' _ hnd)

theorem parseTokens_first_noEq (ts : List String) : ∀ (acc : List (String × String)) (tok : String),
    firstNoEq ts = some tok → allValuesNonempty ts = true →
    parseTokens acc ts = .error (.malformedSignature tok) := by
  induction ts with
  | nil =>
    intro acc tok htok _
    simp [firstNoEq] at htok
  | cons t rest ih =>
    intro acc tok htok hall
    cases hs : splitFirstEq t with
    | none =>
      have htt : tok = t := by
        unfold firstNoEq at htok
        rw [List.find?_cons_of_pos _ (by simp [hs])] at htok
        injection htok with h
        exact h.symm
      subst htt
      rw [parseTokens, hs]
    | some kv =>
      obtain ⟨k, v⟩ := kv
      unfold firstNoEq at htok
      rw [List.find?_cons_of_neg _ (by simp [hs])] at htok
      unfold allValuesNonempty at hall
      rw [List.all_cons, Bool.and_eq_true] at hall
      obtain ⟨hv, hrest⟩ := hall
      simp only [hs] at hv
      cases hd : (pyStrip v).data with
      | nil => rw [hd] at hv; simp at hv
      | cons c cs =>
        rw [parseTokens]
        simp only [hs, hd]
        exact ih _ tok htok hrest

theorem parseTokens_first_emptyValue (ts : List String) :
    ∀ (acc : List (String × String)) (tok : String),
    allHaveEq ts = true → firstEmptyValue ts = some tok →
    parseTokens acc ts = .error (.emptySignatureValue tok) := by
  induction ts with
  | nil =>
    intro acc tok _ htok
    simp [firstEmptyValue] at htok
  | cons t rest ih =>
    intro acc tok hall htok
    unfold allHaveEq at hall
    rw [List.all_cons, Bool.and_eq_true] at hall
    obtain ⟨hv, hrest⟩ := hall
    obtain ⟨kv, hs⟩ := Option.isSome_iff_exists.mp hv
    obtain ⟨k, v⟩ := kv
    cases hd : (pyStrip v).data with
    | nil =>
      have htt : tok = t := by
        unfold firstEmptyValue at htok
        rw [List.find?_cons_of_pos _ (by simp [hs, hd])] at htok
        injection htok with h
        exact h.symm
      subst htt
      rw [parseTokens]
      simp only [hs, hd]
    | cons c cs =>
      unfold firstEmptyValue at htok
      rw [List.find?_cons_of_neg _ (by simp [hs, hd])] at htok
      rw [parseTokens]
      simp only [hs, hd]
      exact ih _ tok hrest htok

theorem lookupAttr_foldl_dictSet_not_mem (ps : List (String × String)) :
    ∀ (d : List (String × String)) (k : String), k ∉ keysOf ps →
    lookupAttr (ps.foldl (fun d p => dictSet d p.1 p.2) d) k = lookupAttr d k := by
  induction ps with
  | nil => intro d k _; rfl
  | cons p rest ih =>
    intro d k hk
    simp only [keysOf_cons, List.mem_cons, not_or] at hk
    rw [List.foldl_cons, ih _ k hk.2]
    exact lookupAttr_dictSet_ne d p.1 p.2 k hk.1

theorem lookupAttr_foldl_dictSet_mem (ps : List (String × String)) :
    ∀ (d : List (String × String)) (k v : String), (keysOf ps).Nodup → (k, v) ∈ ps →
    lookupAttr (ps.foldl (fun d p => dictSet d p.1 p.2) d) k = some v := by
  induction ps with
  | nil => intro d k v _ hm; simp at hm
  | cons p rest ih =>
    intro d k v hnd hm
    rw [keysOf_cons, List.nodup_cons] at hnd
    rw [List.foldl_cons]
    rcases List.mem_cons.mp hm with heq | hm'
    · obtain rfl : p = (k, v) := heq.symm
      rw [lookupAttr_foldl_dictSet_not_mem rest _ k hnd.1]
      exact lookupAttr_dictSet_self d k v
    · exact ih _ k v hnd.2 hm'

theorem Element.tag_appendChild (e x : Element) : (e.appendChild x).tag = e.tag := by
  cases e
  rfl

theorem Element.children_appendChild (e x : Element) :
    (e.appendChild x).children = e.children ++ [x] := by
  cases e
  rfl

theorem find?_appendToFirstChannel (cs : List Element) (ch item : Element)
    (h : cs.find? (fun c => c.tag = "channel") = some ch) :
    (appendToFirstChannel cs item).find? (fun c => c.tag = "channel")
      = some (ch.appendChild item) := by
  induction cs with
  | nil => simp at h
  | cons c rest ih =>
    by_cases hc : c.tag = "channel"
    · rw [List.find?_cons_of_pos _ (by simp [hc])] at h
      injection h with h
      subst h
      rw [appendToFirstChannel, if_pos hc]
      exact List.find?_cons_of_pos _ (by simp [Element.tag_appendChild, hc])
    · rw [List.find?_cons_of_neg _ (by simp [hc])] at h
      rw [appendToFirstChannel, if_neg hc]
      rw [List.find?_cons_of_neg _ (by simp [hc])]
      exact ih h

theorem findChild_appendItemToChannel (doc ch item : Element)
    (h : findChild doc "channel" = some ch) :
    findChild (appendItemToChannel doc item) "channel" = some (ch.appendChild item) := by
  cases doc with
  | mk t a x c =>
    unfold findChild Element.children at h ⊢
    unfold appendItemToChannel
    exact find?_appendToFirstChannel c ch item h

/-- Claim C1, counterexample: the claim's own well-formed form
`k1=v1 k2="v2 with spaces"` is rejected, not parsed into a map — the blob
is split at every single space, so the quoted value's words become
separate tokens and the token `with` has no `=`, which makes the loop's
unpacking raise (`MalformedSignature`). -/
theorem parseSignature_quotedSpaces_counterexample :
    parseSignature "k1=v1 k2=\"v2 with spaces\"" = .error (.malformedSignature "with") := rfl

/-- Claim C1 (amended): for a blob whose space-separated tokens each
split at an `=` with a nonempty stripped value, and whose keys are
pairwise distinct, parsing succeeds and yields one map entry per token in
token order — so the entry count equals the token count — where a value
whose stripped form starts with a double quote loses exactly its first
and last characters and any other value is kept whitespace-stripped. -/
theorem parseSignature_wellFormed (blob : String)
    (hgood : ∀ t ∈ pySplit blob ' ', (specEntry t).isSome)
    (hkeys : (keysOf ((pySplit blob ' ').filterMap specEntry)).Nodup) :
    parseSignature blob = .ok ((pySplit blob ' ').filterMap specEntry) ∧
    ((pySplit blob ' ').filterMap specEntry).length = (pySplit blob ' ').length ∧
    (∀ t ∈ pySplit blob ' ', ∀ k v : String, splitFirstEq t = some (k, v) →
      ∀ cs : List Char, (pyStrip v).data = '\"' :: cs →
        (k, String.mk cs.dropLast) ∈ (pySplit blob ' ').filterMap specEntry) ∧
    (∀ t ∈ pySplit blob ' ', ∀ k v : String, splitFirstEq t = some (k, v) →
      ∀ (c : Char) (cs : List Char), (pyStrip v).data = c :: cs → c ≠ '\"' →
        (k, pyStrip v) ∈ (pySplit blob ' ').filterMap specEntry) := by
  refine ⟨?_, length_filterMap_of_isSome specEntry _ hgood, ?_, ?_⟩
  · have h := parseTokens_ok_of_good (pySplit blob ' ') [] hgood hkeys
      (by intro p _; simp [keysOf])
    simpa [parseSignature] using h
  · intro t ht k v heq cs hd
    have hse := specEntry_of_split t k v '\"' cs heq hd
    rw [if_pos rfl] at hse
    exact List.mem_filterMap.mpr ⟨t, ht, hse⟩
  · intro t ht k v heq c cs hd hc
    have hse := specEntry_of_split t k v c cs heq hd
    rw [if_neg hc] at hse
    exact List.mem_filterMap.mpr ⟨t, ht, hse⟩

/-- Witness for the amended C1 at a concrete blob with one plain and one
quoted (space-free) value. -/
theorem parseSignature_wellFormed_witness :
    parseSignature "k1=v1 k2=\"v2\"" = .ok [("k1", "v1"), ("k2", "v2")] ∧
    ((pySplit "k1=v1 k2=\"v2\"" ' ').filterMap specEntry).length
      = (pySplit "k1=v1 k2=\"v2\"" ' ').length := by
  have h := parseSignature_wellFormed "k1=v1 k2=\"v2\"" (by decide) (by decide)
  exact ⟨h.1, h.2.1⟩

/-- Claim C2: when the parsed feed has no `channel` child (and the
earlier steps succeed), the run stops with `MissingChannel` and writes no
file. -/
theorem run_missingChannel (build commit nowStr sig : String)
    (attrs : List (String × String)) (doc : Element)
    (hsig : parseSignature sig = .ok attrs)
    (hch : findChild doc "channel" = none) :
    runScript (some build) (some commit) (some sig) (some doc) nowStr
      = ⟨[], some .missingChannel⟩ := by
  simp only [runScript, hsig, hch]

/-- Witness for C2: a feed whose root has no `channel` child. -/
theorem run_missingChannel_witness :
    runScript (some "1234") (some "abcd123") (some "a=b") (some (.mk "rss" [] none [])) "now"
      = ⟨[], some .missingChannel⟩ :=
  run_missingChannel "1234" "abcd123" "now" "a=b" [("a", "b")] (.mk "rss" [] none []) rfl rfl

/-- Claim C3: a successful run writes exactly one document, equal to the
input with the new item appended as the last child of the first `channel`
child; the channel's `item` children afterwards are the original ones, in
order, followed by the new item — so their count grows by one. -/
theorem run_appends_item (build commit nowStr sig : String)
    (attrs : List (String × String)) (doc ch : Element)
    (hsig : parseSignature sig = .ok attrs)
    (hch : findChild doc "channel" = some ch) :
    runScript (some build) (some commit) (some sig) (some doc) nowStr
      = ⟨[("appcast_new.xml", appendItemToChannel doc (mkItem build commit nowStr attrs))],
         none⟩ ∧
    findChild (appendItemToChannel doc (mkItem build commit nowStr attrs)) "channel"
      = some (ch.appendChild (mkItem build commit nowStr attrs)) ∧
    (ch.appendChild (mkItem build commit nowStr attrs)).children
      = ch.children ++ [mkItem build commit nowStr attrs] ∧
    itemsOf (ch.appendChild (mkItem build commit nowStr attrs))
      = itemsOf ch ++ [mkItem build commit nowStr attrs] ∧
    (itemsOf (ch.appendChild (mkItem build commit nowStr attrs))).length
      = (itemsOf ch).length + 1 := by
  have h4 : itemsOf (ch.appendChild (mkItem build commit nowStr attrs))
      = itemsOf ch ++ [mkItem build commit nowStr attrs] := by
    unfold itemsOf
    rw [Element.children_appendChild, List.filter_append]
    simp [mkItem, Element.tag]
  refine ⟨?_, findChild_appendItemToChannel doc ch _ hch,
    Element.children_appendChild ch _, h4, ?_⟩
  · simp only [runScript, hsig, hch]
  · rw [h4, List.length_append]
    rfl

/-- Witness for C3: a feed whose channel already holds one item. -/
theorem run_appends_item_witness :
    runScript (some "1234") (some "abc") (some "a=b")
        (some (.mk "rss" [] none [.mk "channel" [] none [.mk "item" [] none []]])) "now"
      = ⟨[("appcast_new.xml", .mk "rss" [] none
            [.mk "channel" [] none
              [.mk "item" [] none [], mkItem "1234" "abc" "now" [("a", "b")]]])],
         none⟩ ∧
    itemsOf ((Element.mk "channel" [] none [.mk "item" [] none []]).appendChild
        (mkItem "1234" "abc" "now" [("a", "b")]))
      = [Element.mk "item" [] none [], mkItem "1234" "abc" "now" [("a", "b")]] := by
  have h := run_appends_item "1234" "abc" "now" "a=b" [("a", "b")]
    (.mk "rss" [] none [.mk "channel" [] none [.mk "item" [] none []]])
    (.mk "channel" [] none [.mk "item" [] none []]) rfl rfl
  exact ⟨h.1, h.2.2.2.1⟩

/-- Claim C4: the enclosure carries `url` = the fixed tip-bucket template
with the build substituted and `type` = `application/octet-stream`
whenever the signature map does not override them, and every signature
map entry ends up as an attribute — in particular a map entry keyed
`url` or `type` wins over the fixed value, because the map entries are
applied after the two fixed `set` calls. -/
theorem enclosure_attributes (build : String) (attrs : List (String × String))
    (hnd : (keysOf attrs).Nodup) :
    ("url" ∉ keysOf attrs →
      lookupAttr (enclosureAttrs build attrs) "url" = some (tipUrl build)) ∧
    ("type" ∉ keysOf attrs →
      lookupAttr (enclosureAttrs build attrs) "type" = some "application/octet-stream") ∧
    (∀ p ∈ attrs, lookupAttr (enclosureAttrs build attrs) p.1 = some p.2) := by
  refine ⟨?_, ?_, ?_⟩
  · intro hu
    unfold enclosureAttrs
    rw [lookupAttr_foldl_dictSet_not_mem attrs _ "url" hu]
    rfl
  · intro ht
    unfold enclosureAttrs
    rw [lookupAttr_foldl_dictSet_not_mem attrs _ "type" ht]
    rfl
  · intro p hp
    unfold enclosureAttrs
    exact lookupAttr_foldl_dictSet_mem attrs _ p.1 p.2 hnd (by rw [Prod.mk.eta]; exact hp)

/-- Witness for C4, including the collision case where the map overrides
`url`. -/
theorem enclosure_attributes_witness :
    lookupAttr (enclosureAttrs "1234" [("edSignature", "MC0CFQ"), ("length", "512")]) "url"
      = some "https://tip.files.ghostty.dev/1234/ghostty-macos-universal.zip" ∧
    lookupAttr (enclosureAttrs "1234" [("edSignature", "MC0CFQ"), ("length", "512")]) "type"
      = some "application/octet-stream" ∧
    lookupAttr (enclosureAttrs "1234" [("edSignature", "MC0CFQ"), ("length", "512")])
        "edSignature" = some "MC0CFQ" ∧
    lookupAttr (enclosureAttrs "9" [("url", "OVERRIDE")]) "url" = some "OVERRIDE" := by
  have h1 := enclosure_attributes "1234" [("edSignature", "MC0CFQ"), ("length", "512")]
    (by decide)
  have h2 := enclosure_attributes "9" [("url", "OVERRIDE")] (by decide)
  exact ⟨h1.1 (by decide), h1.2.1 (by decide),
    h1.2.2 ("edSignature", "MC0CFQ") (by decide), h2.2.2 ("url", "OVERRIDE") (by decide)⟩

/-- Claim C5: one token is split at its first `=` only (the value may
contain further `=` characters), the value is whitespace-stripped, and a
stripped value that starts with a double quote loses exactly one leading
and one trailing character, unconditionally — the trailing character is
removed without checking that it is a quote. -/
theorem token_parse_single (k v : String) (hk : '=' ∉ k.data) :
    splitFirstEq (k ++ "=" ++ v) = some (k, v) ∧
    (∀ (c : Char) (cs : List Char), (pyStrip v).data = c :: cs → c ≠ '\"' →
      parseTokens [] [k ++ "=" ++ v] = .ok [(k, pyStrip v)]) ∧
    (∀ cs : List Char, (pyStrip v).data = '\"' :: cs →
      parseTokens [] [k ++ "=" ++ v] = .ok [(k, String.mk cs.dropLast)]) := by
  have hsplit := splitFirstEq_append k v hk
  refine ⟨hsplit, ?_, ?_⟩
  · intro c cs hd hc
    rw [parseTokens]
    simp only [hsplit, hd]
    rw [if_neg hc]
    rfl
  · intro cs hd
    rw [parseTokens]
    simp only [hsplit, hd]
    rfl

/-- Witness for C5: a value with an inner `=`, a value needing trimming,
and an unbalanced quoted value `"abc` that silently loses its real
trailing character. -/
theorem token_parse_single_witness :
    splitFirstEq ("a" ++ "=" ++ "b=c") = some ("a", "b=c") ∧
    parseTokens [] ["a" ++ "=" ++ "b=c"] = .ok [("a", "b=c")] ∧
    parseTokens [] ["k" ++ "=" ++ " b\n"] = .ok [("k", "b")] ∧
    parseTokens [] ["sig" ++ "=" ++ "\"abc"] = .ok [("sig", "ab")] := by
  have h1 := token_parse_single "a" "b=c" (by decide)
  have h2 := token_parse_single "k" " b\n" (by decide)
  have h3 := token_parse_single "sig" "\"abc" (by decide)
  exact ⟨h1.1, h1.2.1 'b' ['=', 'c'] rfl (by decide),
    h2.2.1 'b' [] rfl (by decide), h3.2.2 ['a', 'b', 'c'] rfl⟩

/-- Claim C6: when some blob token lacks an `=` separator (and no earlier
token aborts the loop through an empty value first), the run stops at the
first such token with `MalformedSignature` — before any feed handling —
and writes no file; the offending token indeed contains no `=`. -/
theorem run_malformedSignature (build commit nowStr sig : String) (feed : Option Element)
    (tok : String)
    (htok : firstNoEq (pySplit sig ' ') = some tok)
    (hvals : allValuesNonempty (pySplit sig ' ') = true) :
    runScript (some build) (some commit) (some sig) feed nowStr
      = ⟨[], some (.malformedSignature tok)⟩ ∧ '=' ∉ tok.data := by
  constructor
  · have hp : parseSignature sig = .error (.malformedSignature tok) :=
      parseTokens_first_noEq (pySplit sig ' ') [] tok htok hvals
    simp only [runScript, hp]
  · have hpred := List.find?_some htok
    simp only [Option.isNone_iff_eq_none] at hpred
    exact (splitFirstEq_eq_none_iff tok).mp hpred

/-- Witness for C6: the spec's own scenario token `badtoken`; no output
is written even though the feed is present and well-shaped. -/
theorem run_malformedSignature_witness :
    runScript (some "1") (some "c") (some "edSignature=abc badtoken")
        (some (.mk "rss" [] none [.mk "channel" [] none []])) "now"
      = ⟨[], some (.malformedSignature "badtoken")⟩ ∧ '=' ∉ "badtoken".data :=
  run_malformedSignature "1" "c" "now" "edSignature=abc badtoken"
    (some (.mk "rss" [] none [.mk "channel" [] none []])) "badtoken" (by decide) (by decide)

/-- Claim C7: every run either fails before the write — producing no
file — or succeeds and writes exactly the one complete output document;
there is no state in which a file is written by a failing run. -/
theorem run_no_partial_output (envBuild envCommit sigFile : Option String)
    (feedXml : Option Element) (nowStr : String) :
    (∃ doc, runScript envBuild envCommit sigFile feedXml nowStr
        = ⟨[("appcast_new.xml", doc)], none⟩) ∨
    (∃ e, runScript envBuild envCommit sigFile feedXml nowStr = ⟨[], some e⟩) := by
  cases envBuild with
  | none => exact Or.inr ⟨_, rfl⟩
  | some build =>
    cases envCommit with
    | none => exact Or.inr ⟨_, rfl⟩
    | some commit =>
      cases sigFile with
      | none => exact Or.inr ⟨_, rfl⟩
      | some sigText =>
        cases hp : parseSignature sigText with
        | error e => exact Or.inr ⟨e, by simp only [runScript, hp]⟩
        | ok attrs =>
          cases feedXml with
          | none => exact Or.inr ⟨.malformedFeed, by simp only [runScript, hp]⟩
          | some doc =>
            cases hc : findChild doc "channel" with
            | none => exact Or.inr ⟨.missingChannel, by simp only [runScript, hp, hc]⟩
            | some ch =>
              exact Or.inl ⟨appendItemToChannel doc (mkItem build commit nowStr attrs),
                by simp only [runScript, hp, hc]⟩

/-- Claim C8: the constructed item's `sparkle:version` text is the build
value verbatim, `sparkle:shortVersionString` is the commit value
verbatim, the title is `Build ` followed by the build value, and
`sparkle:minimumSystemVersion` is the literal `12.0.0`. -/
theorem item_fields (build commit nowStr : String) (attrs : List (String × String))
    (hb : build ≠ "") (hc : commit ≠ "") :
    findChild (mkItem build commit nowStr attrs) "title"
      = some (.mk "title" [] (some ("Build " ++ build)) []) ∧
    findChild (mkItem build commit nowStr attrs) "sparkle:version"
      = some (.mk "sparkle:version" [] (some build) []) ∧
    findChild (mkItem build commit nowStr attrs) "sparkle:shortVersionString"
      = some (.mk "sparkle:shortVersionString" [] (some commit) []) ∧
    findChild (mkItem build commit nowStr attrs) "sparkle:minimumSystemVersion"
      = some (.mk "sparkle:minimumSystemVersion" [] (some "12.0.0") []) :=
  ⟨rfl, rfl, rfl, rfl⟩

/-- Witness for C8 at the spec's scenario values. -/
theorem item_fields_witness :
    findChild (mkItem "1234" "abcd123" "now" []) "sparkle:version"
      = some (.mk "sparkle:version" [] (some "1234") []) ∧
    findChild (mkItem "1234" "abcd123" "now" []) "sparkle:shortVersionString"
      = some (.mk "sparkle:shortVersionString" [] (some "abcd123") []) := by
  have h := item_fields "1234" "abcd123" "now" [] (by decide) (by decide)
  exact ⟨h.2.1, h.2.2.1⟩

/-- Claim C9: when every token splits at an `=` but some token's stripped
value is empty (for example `key=`), the run aborts at the first such
token with the uncaught indexing error — a failure mode outside the
spec's `MalformedSignature` — and writes no file. -/
theorem run_emptyValue_aborts (build commit nowStr sig : String) (feed : Option Element)
    (tok : String)
    (hall : allHaveEq (pySplit sig ' ') = true)
    (htok : firstEmptyValue (pySplit sig ' ') = some tok) :
    runScript (some build) (some commit) (some sig) feed nowStr
      = ⟨[], some (.emptySignatureValue tok)⟩ := by
  have hp : parseSignature sig = .error (.emptySignatureValue tok) :=
    parseTokens_first_emptyValue (pySplit sig ' ') [] tok hall htok
  simp only [runScript, hp]

/-- Witness for C9 at the token `key=`. -/
theorem run_emptyValue_aborts_witness :
    runScript (some "1") (some "c") (some "key=")
        (some (.mk "rss" [] none [.mk "channel" [] none []])) "now"
      = ⟨[], some (.emptySignatureValue "key=")⟩ :=
  run_emptyValue_aborts "1" "c" "now" "key="
    (some (.mk "rss" [] none [.mk "channel" [] none []])) "key=" (by decide) (by decide)

/-- Claim C10: when several tokens share a key, the parsed map holds the
last such token's processed value for that key — so the map can have
fewer entries than the blob has tokens (concretely, `a=1 a=2` yields one
entry from two tokens) — and that last value is also what the enclosure
lookup returns for that key. -/
theorem duplicate_keys_last_wins (blob : String) (m : List (String × String))
    (k v build : String)
    (hok : parseSignature blob = .ok m)
    (hlast : lastEntryValue (pySplit blob ' ') k = some v) :
    lookupAttr m k = some v ∧
    lookupAttr (enclosureAttrs build m) k = some v ∧
    parseSignature "a=1 a=2" = .ok [("a", "2")] ∧
    (pySplit "a=1 a=2" ' ').length = 2 := by
  have hl : lookupAttr m k = some v := by
    have h2 := parseTokens_lookup (pySplit blob ' ') [] m hok k
    rw [hlast] at h2
    exact h2
  refine ⟨hl, ?_, rfl, rfl⟩
  have hnd : (keysOf m).Nodup :=
    parseTokens_keys_nodup (pySplit blob ' ') [] m hok (by simp [keysOf])
  have hmem : (k, v) ∈ m := lookupAttr_mem m k v hl
  unfold enclosureAttrs
  exact lookupAttr_foldl_dictSet_mem m _ k v hnd hmem

/-- Witness for C10 at the duplicate-key blob `a=1 a=2`. -/
theorem duplicate_keys_last_wins_witness :
    lookupAttr [("a", "2")] "a" = some "2" ∧
    lookupAttr (enclosureAttrs "9" [("a", "2")]) "a" = some "2" ∧
    parseSignature "a=1 a=2" = .ok [("a", "2")] ∧
    (pySplit "a=1 a=2" ' ').length = 2 :=
  duplicate_keys_last_wins "a=1 a=2" [("a", "2")] "a" "2" "9" rfl rfl
